import Mathlib

/-!
Shallow embedding of `aphrodite/worker/model_runner_base.py`:
the broadcastable tensor-dict marshalling helpers, the frozen/attention/
sampling metadata extraction routines, and the per-request generator
registry of `ModelRunnerBase`.

Python dicts are modelled as association lists with unique keys
(string key, value); `None` is an explicit value constructor `Val.vnone`,
so "key absent" (`alGet = none`) and "key present with value None"
(`alGet = some Val.vnone`) are distinguished, exactly as in Python.
-/

namespace Aphrodite

/-- Values stored in a broadcast tensor dict: Python `None`, tensor-like
values, scalars, strings, a constructed `SamplingMetadata` object (its four
fields inlined), and a constructed dataclass instance (field-name/value
pairs in declaration order). -/
inductive Val : Type where
  | vnone : Val
  | vtensor (data : List Int) : Val
  | vint (n : Int) : Val
  | vstr (s : String) : Val
  | vsampling (seq_groups : Val) (selected_token_indices : Val)
      (categorized_sample_indices : Val) (num_prompts : Int) : Val
  | vrecord (fields : List (String × Val)) : Val
deriving Repr

/-- The Python identity test `v is None`. -/
def Val.isNone : Val → Bool
  | .vnone => true
  | _ => false

/-- A Python dict of broadcastable values: association list, unique keys. -/
abbrev TensorDict := List (String × Val)

/-- Dict read: value of the first (with unique keys: the only) entry for a
key, `none` when the key is absent. -/
def alGet {α : Type} : List (String × α) → String → Option α
  | [], _ => none
  | (k, v) :: rest, key => if k = key then some v else alGet rest key

/-- Dict key removal (`pop`'s mutation): removes the entry for the key if
present, identity otherwise. -/
def alErase {α : Type} : List (String × α) → String → List (String × α)
  | [], _ => []
  | (k, v) :: rest, key => if k = key then rest else (k, v) :: alErase rest key

/-- Dict write `d[key] = v`: replaces the value in place if the key exists,
appends otherwise (Python insertion order). -/
def alSet {α : Type} : List (String × α) → String → α → List (String × α)
  | [], key, v => [(key, v)]
  | (k, w) :: rest, key, v =>
      if k = key then (key, v) :: rest else (k, w) :: alSet rest key v

/-- `d.pop(key, None)`: returns the stored value (or `Val.vnone` when the
key is absent) together with the dict with the key removed. -/
def dictPop (d : TensorDict) (key : String) : Val × TensorDict :=
  match alGet d key with
  | some v => (v, alErase d key)
  | none => (Val.vnone, d)

/-- One declared dataclass field: its name and whether it is required
(has no default). Mirrors what `dataclasses.fields` exposes of a field. -/
structure Field where
  name : String
  required : Bool
deriving Repr, DecidableEq

/-- The extraction loop shared by the attention and frozen-input helpers:
for each declared field, `pop` its name from the dict (removing the entry
whether or not the value is `None`), and keep the popped entry as a keyword
argument only when its value is not `None`. Returns the keyword list in
field order and the remaining dict. -/
def popFields : List Field → TensorDict → List (String × Val) × TensorDict
  | [], d => ([], d)
  | f :: fs, d =>
      let p := dictPop d f.name
      let rest := popFields fs p.2
      if p.1.isNone then rest else ((f.name, p.1) :: rest.1, rest.2)

/-- Python dataclass construction `cls(**kwargs)` for a field list: every
required field must appear in the keyword set, else a `TypeError` naming
the missing fields; fields not supplied take their default (modelled as
`None`, the default used by the optional fields of these input records).
The result lists every declared field with its value, in declaration
order. -/
def mkDataclass (fields : List Field) (kwargs : List (String × Val)) :
    Except (List String) (List (String × Val)) :=
  let missing :=
    (fields.filter (fun f => f.required && (alGet kwargs f.name).isNone)).map Field.name
  if missing.isEmpty then
    .ok (fields.map (fun f => (f.name, (alGet kwargs f.name).getD Val.vnone)))
  else
    .error missing

/-- Modelled from the spec: the `AttentionBackend` class is not under the
source tree; the spec describes it as "a capability to report its metadata
type's declared field names and to construct an instance from a keyword
set" (dataclass semantics, failing on a missing required field). -/
structure AttentionBackend where
  metadata_fields : List Field

/-- Modelled from the spec: `attn_backend.make_metadata(**kwargs)`
constructs the backend's metadata dataclass from a keyword set. -/
def AttentionBackend.make_metadata (b : AttentionBackend)
    (kwargs : List (String × Val)) : Except (List String) Val :=
  (mkDataclass b.metadata_fields kwargs).map Val.vrecord

/-- `_init_attn_metadata_from_tensor_dict`: pop each declared field of the
backend's metadata class from the dict, keep the non-`None` ones as keyword
arguments, construct the metadata, and store it under `"attn_metadata"`.
A missing required field surfaces as the construction error. -/
def _init_attn_metadata_from_tensor_dict (attn_backend : AttentionBackend)
    (tensor_dict : TensorDict) : Except (List String) TensorDict :=
  let pf := popFields attn_backend.metadata_fields tensor_dict
  match attn_backend.make_metadata pf.1 with
  | .ok attn_metadata => .ok (alSet pf.2 "attn_metadata" attn_metadata)
  | .error e => .error e

/-- `_init_sampling_metadata_from_tensor_dict`: pop
`"selected_token_indices"`; when the popped value is not `None`, store
under `"sampling_metadata"` an empty `SamplingMetadata` (no seq groups, no
categorized indices, zero prompts) carrying exactly the popped indices. -/
def _init_sampling_metadata_from_tensor_dict (tensor_dict : TensorDict) :
    TensorDict :=
  let p := dictPop tensor_dict "selected_token_indices"
  if p.1.isNone then p.2
  else
    alSet p.2 "sampling_metadata"
      (Val.vsampling Val.vnone p.1 Val.vnone 0)

/-- Attribute read `sampling_metadata.selected_token_indices`; the helpers
only ever apply it to `SamplingMetadata` objects, the other arms are
unreachable under the source's type annotations. -/
def Val.selectedTokenIndices : Val → Val
  | .vsampling _ sti _ _ => sti
  | _ => .vnone

/-- `_add_sampling_metadata_broadcastable_dict`: when the metadata object
is not `None`, write its `selected_token_indices` attribute into the dict
under that key. -/
def _add_sampling_metadata_broadcastable_dict (tensor_dict : TensorDict) :
    Option Val → TensorDict
  | none => tensor_dict
  | some sampling_metadata =>
      alSet tensor_dict "selected_token_indices"
        sampling_metadata.selectedTokenIndices

/-- `_init_frozen_model_input_from_tensor_dict`: pop each declared field of
the frozen model-input dataclass from the dict, keep the non-`None` ones as
keyword arguments, construct the frozen input, and store it under
`"frozen_model_input"`. A missing required field surfaces as the
construction error. -/
def _init_frozen_model_input_from_tensor_dict
    (frozen_model_input_cls : List Field) (tensor_dict : TensorDict) :
    Except (List String) TensorDict :=
  let pf := popFields frozen_model_input_cls tensor_dict
  match mkDataclass frozen_model_input_cls pf.1 with
  | .ok frozen_model_input =>
      .ok (alSet pf.2 "frozen_model_input" (Val.vrecord frozen_model_input))
  | .error e => .error e

/-- Modelled from the spec: the default `as_broadcastable_tensor_dict` of a
plain record "emit every declared field whose value is not absent"; the
concrete `BroadcastableModelInput` variants are not under the source
tree. -/
def record_as_broadcastable_tensor_dict (fields : List (String × Val)) :
    TensorDict :=
  fields.filter (fun p => !p.2.isNone)

/-- The generator registry: a dict from request id to a `torch.Generator`
object, modelled by an opaque numeric object identity (the code never
inspects a generator, it only stores and removes them). -/
abbrev Registry := List (String × Nat)

/-- `ModelRunnerBase.get_generators`: when `finished_request_ids` is truthy
(not `None` and non-empty), `pop` each listed id from the registry (absent
ids are ignored), then return the registry. -/
def ModelRunnerBase.get_generators (generators : Registry)
    (finished_request_ids : Option (List String)) : Registry :=
  match finished_request_ids with
  | none => generators
  | some ids =>
      if ids.isEmpty then generators
      else ids.foldl (fun g request_id => alErase g request_id) generators

/-- One `ModelRunnerBase` instance: its instance dict either holds its own
`generators` entry or not. The source never assigns `self.generators`, so
instances as the source creates them carry `none` and attribute lookup
falls through to the class attribute. -/
structure Runner where
  own_generators : Option Registry

/-- A freshly constructed `ModelRunnerBase` instance: no instance-level
`generators` attribute. -/
def Runner.new : Runner := ⟨none⟩

/-- The mutable state touched by `get_generators`: the class attribute
`ModelRunnerBase.generators` (initialized to an empty dict at class
definition time) plus two instances A and B of the class. -/
structure RunnerWorld where
  class_generators : Registry
  runnerA : Runner
  runnerB : Runner

/-- Python attribute lookup `self.generators`: the instance dict first,
else the class attribute. -/
def readGenerators (w : RunnerWorld) (r : Runner) : Registry :=
  r.own_generators.getD w.class_generators

/-- `A.get_generators(finished_request_ids)`: the `pop` calls mutate the
object that attribute lookup resolves to — instance A's own dict entry when
it has one, otherwise the shared class attribute — and the method returns
that same (updated) registry. -/
def callGetGeneratorsA (w : RunnerWorld) (ids : Option (List String)) :
    RunnerWorld × Registry :=
  match w.runnerA.own_generators with
  | some r =>
      let r2 := ModelRunnerBase.get_generators r ids
      (⟨w.class_generators, ⟨some r2⟩, w.runnerB⟩, r2)
  | none =>
      let r2 := ModelRunnerBase.get_generators w.class_generators ids
      (⟨r2, w.runnerA, w.runnerB⟩, r2)

/-- Outcome of calling a Python method: a normal return or a raised
exception, identified by its class name. -/
inductive PyOutcome (α : Type) : Type where
  | ok (val : α) : PyOutcome α
  | raised (exn_name : String) : PyOutcome α
deriving Repr, DecidableEq

/-- Body of the base `BroadcastableModelInput.as_broadcastable_tensor_dict`:
`raise NotImplementedError`. -/
def BroadcastableModelInput.as_broadcastable_tensor_dict (_self : Unit) :
    PyOutcome TensorDict :=
  .raised "NotImplementedError"

/-- Body of the base `BroadcastableModelInput.from_broadcasted_tensor_dict`:
`raise NotImplementedError`. -/
def BroadcastableModelInput.from_broadcasted_tensor_dict
    (tensor_dict : TensorDict) (attn_backend : Option AttentionBackend) :
    PyOutcome Unit :=
  .raised "NotImplementedError"

/-- Body of the base `ModelRunnerInputBuilderBase.add_seq_group`:
`raise NotImplementedError`. -/
def ModelRunnerInputBuilderBase.add_seq_group (_self : Unit)
    (seq_group_metadata : Val) : PyOutcome Unit :=
  .raised "NotImplementedError"

/-- Body of the base `ModelRunnerInputBuilderBase.build`:
`raise NotImplementedError`. -/
def ModelRunnerInputBuilderBase.build (_self : Unit) (args : List Val) :
    PyOutcome Unit :=
  .raised "NotImplementedError"

/-- Body of the base
`ModelRunnerBase.make_model_input_from_broadcasted_tensor_dict`:
`raise NotImplementedError`. -/
def ModelRunnerBase.make_model_input_from_broadcasted_tensor_dict
    (_self : Runner) (tensor_dict : TensorDict) : PyOutcome Unit :=
  .raised "NotImplementedError"

/-- Body of the base `ModelRunnerBase.prepare_model_input`:
`raise NotImplementedError`. -/
def ModelRunnerBase.prepare_model_input (_self : Runner)
    (seq_group_metadata_list : List Val) (virtual_engine : Int)
    (finished_requests_ids : Option (List String)) : PyOutcome Unit :=
  .raised "NotImplementedError"

/-- Body of `ModelRunnerBase.execute_model` (not marked abstract, but its
base body is `raise NotImplementedError`; the `inference_mode` decorator
only scopes execution and does not intercept the exception). -/
def ModelRunnerBase.execute_model (_self : Runner) (model_input : Val)
    (kv_caches : Option (List Val))
    (intermediate_tensors : Option Val) (num_steps : Int) :
    PyOutcome (Option (List Val)) :=
  .raised "NotImplementedError"

theorem alGet_alSet_self {α : Type} (d : List (String × α)) (k : String) (v : α) :
    alGet (alSet d k v) k = some v := by
  induction d with
  | nil => simp [alSet, alGet]
  | cons p rest ih =>
      obtain ⟨a, w⟩ := p
      by_cases h : a = k
      · simp [alSet, h, alGet]
      · simp [alSet, h, alGet, ih]

theorem alGet_alSet_ne {α : Type} (d : List (String × α)) (k key : String) (v : α)
    (h : key ≠ k) : alGet (alSet d k v) key = alGet d key := by
  induction d with
  | nil => simp [alSet, alGet, Ne.symm h]
  | cons p rest ih =>
      obtain ⟨a, w⟩ := p
      by_cases ha : a = k
      · simp [alSet, ha, alGet, Ne.symm h]
      · simp [alSet, ha, alGet, ih]

theorem alGet_alErase_ne {α : Type} (d : List (String × α)) (k key : String)
    (h : key ≠ k) : alGet (alErase d k) key = alGet d key := by
  induction d with
  | nil => simp [alErase]
  | cons p rest ih =>
      obtain ⟨a, w⟩ := p
      by_cases ha : a = k
      · simp [alErase, ha, alGet, Ne.symm h]
      · simp [alErase, ha, alGet, ih]

theorem alGet_eq_none_iff {α : Type} (d : List (String × α)) (k : String) :
    alGet d k = none ↔ k ∉ d.map Prod.fst := by
  induction d with
  | nil => simp [alGet]
  | cons p rest ih =>
      obtain ⟨a, w⟩ := p
      by_cases ha : a = k
      · subst ha
        simp [alGet]
      · simp [alGet, ha, ih, Ne.symm ha]

theorem alErase_of_not_mem {α : Type} (d : List (String × α)) (k : String)
    (h : alGet d k = none) : alErase d k = d := by
  induction d with
  | nil => simp [alErase]
  | cons p rest ih =>
      obtain ⟨a, w⟩ := p
      by_cases ha : a = k
      · subst ha
        simp [alGet] at h
      · simp [alGet, ha] at h
        simp [alErase, ha, ih h]

theorem alErase_sublist {α : Type} (d : List (String × α)) (k : String) :
    (alErase d k).Sublist d := by
  induction d with
  | nil => simp [alErase]
  | cons p rest ih =>
      obtain ⟨a, w⟩ := p
      by_cases ha : a = k
      · rw [alErase, if_pos ha]
        exact List.sublist_cons_self (a, w) rest
      · rw [alErase, if_neg ha]
        exact List.Sublist.cons₂ (a, w) ih

theorem nodup_keys_alErase {α : Type} (d : List (String × α)) (k : String)
    (h : (d.map Prod.fst).Nodup) : ((alErase d k).map Prod.fst).Nodup :=
  ((alErase_sublist d k).map Prod.fst).nodup h

theorem alGet_alErase_self {α : Type} (d : List (String × α)) (k : String)
    (h : (d.map Prod.fst).Nodup) : alGet (alErase d k) k = none := by
  induction d with
  | nil => simp [alErase, alGet]
  | cons p rest ih =>
      obtain ⟨a, w⟩ := p
      simp only [List.map_cons, List.nodup_cons] at h
      by_cases ha : a = k
      · subst ha
        rw [alErase, if_pos rfl, alGet_eq_none_iff]
        exact h.1
      · rw [alErase, if_neg ha, alGet, if_neg ha]
        exact ih h.2

theorem dictPop_eq (d : TensorDict) (k : String) :
    dictPop d k = ((alGet d k).getD Val.vnone, alErase d k) := by
  unfold dictPop
  cases h : alGet d k with
  | none => simp [alErase_of_not_mem d k h]
  | some v => simp

/-- The keyword argument derived from a dict entry: a present, non-`None`
value survives; an absent key or a `None` value yields no keyword. -/
def rawKw : Option Val → Option Val
  | some v => if v.isNone then none else some v
  | none => none

/-- The keyword arguments the extraction loop collects, read off the
original dict: for each declared field in order, its entry when present
and non-`None`. -/
def extractKwargs (ty : List Field) (d : TensorDict) : List (String × Val) :=
  ty.filterMap (fun f => (rawKw (alGet d f.name)).map (fun v => (f.name, v)))

/-- The dict left over by the extraction loop: every declared field name
removed (whether its value was `None` or not). -/
def dropFields (ty : List Field) (d : TensorDict) : TensorDict :=
  ty.foldl (fun acc f => alErase acc f.name) d

theorem popFields_snd (ty : List Field) (d : TensorDict) :
    (popFields ty d).2 = dropFields ty d := by
  induction ty generalizing d with
  | nil => rfl
  | cons f fs ih =>
      have h2 : dropFields (f :: fs) d = dropFields fs (alErase d f.name) := rfl
      simp only [popFields, dictPop_eq, h2]
      by_cases hv : ((alGet d f.name).getD Val.vnone).isNone = true
      · rw [if_pos hv, ih]
      · rw [if_neg hv, ih]

theorem extractKwargs_congr (ty : List Field) (d1 d2 : TensorDict)
    (h : ∀ f ∈ ty, alGet d1 f.name = alGet d2 f.name) :
    extractKwargs ty d1 = extractKwargs ty d2 := by
  induction ty with
  | nil => rfl
  | cons f fs ih =>
      simp only [extractKwargs, List.filterMap_cons] at *
      rw [h f (List.mem_cons_self f fs), ih (fun g hg => h g (List.mem_cons_of_mem f hg))]

theorem popFields_fst (ty : List Field) (d : TensorDict)
    (h : (ty.map Field.name).Nodup) :
    (popFields ty d).1 = extractKwargs ty d := by
  induction ty generalizing d with
  | nil => rfl
  | cons f fs ih =>
      simp only [List.map_cons, List.nodup_cons] at h
      have hcongr : extractKwargs fs (alErase d f.name) = extractKwargs fs d :=
        extractKwargs_congr fs _ _ (fun g hg =>
          alGet_alErase_ne d f.name g.name (fun he =>
            h.1 (he ▸ List.mem_map_of_mem Field.name hg)))
      simp only [popFields, dictPop_eq]
      cases hget : alGet d f.name with
      | none =>
          simp only [hget, Option.getD_none, Val.isNone, if_true]
          rw [ih _ h.2, hcongr]
          simp [extractKwargs, List.filterMap_cons, hget, rawKw]
      | some v =>
          cases hv : v.isNone with
          | true =>
              simp only [hget, Option.getD_some, hv, if_true]
              rw [ih _ h.2, hcongr]
              simp [extractKwargs, List.filterMap_cons, hget, rawKw, hv]
          | false =>
              simp only [hget, Option.getD_some, hv, Bool.false_eq_true, if_false]
              rw [ih _ h.2, hcongr]
              simp [extractKwargs, List.filterMap_cons, hget, rawKw, hv]

theorem alGet_extractKwargs_not_mem (ty : List Field) (d : TensorDict) (n : String)
    (h : n ∉ ty.map Field.name) : alGet (extractKwargs ty d) n = none := by
  induction ty with
  | nil => rfl
  | cons f fs ih =>
      simp only [List.map_cons, List.mem_cons, not_or] at h
      have ihh := ih h.2
      cases hr : rawKw (alGet d f.name) with
      | none =>
          simp only [extractKwargs, List.filterMap_cons, hr, Option.map_none']
          exact ihh
      | some v =>
          simp only [extractKwargs, List.filterMap_cons, hr, Option.map_some', alGet,
            if_neg (Ne.symm h.1)]
          exact ihh

theorem alGet_extractKwargs_mem (ty : List Field) (d : TensorDict) (n : String)
    (hmem : n ∈ ty.map Field.name) (h : (ty.map Field.name).Nodup) :
    alGet (extractKwargs ty d) n = rawKw (alGet d n) := by
  induction ty with
  | nil => simp at hmem
  | cons f fs ih =>
      simp only [List.map_cons, List.nodup_cons] at h
      simp only [List.map_cons, List.mem_cons] at hmem
      by_cases hn : f.name = n
      · subst hn
        cases hr : rawKw (alGet d f.name) with
        | none =>
            have h0 := alGet_extractKwargs_not_mem fs d f.name h.1
            simp only [extractKwargs, List.filterMap_cons, hr, Option.map_none']
            exact h0
        | some v =>
            simp [extractKwargs, List.filterMap_cons, hr, Option.map_some', alGet]
      · have hmem2 : n ∈ fs.map Field.name := by
          rcases hmem with h1 | h2
          · exact absurd h1.symm hn
          · exact h2
        have ihh := ih hmem2 h.2
        cases hr : rawKw (alGet d f.name) with
        | none =>
            simp only [extractKwargs, List.filterMap_cons, hr, Option.map_none']
            exact ihh
        | some v =>
            simp only [extractKwargs, List.filterMap_cons, hr, Option.map_some', alGet,
              if_neg hn]
            exact ihh

theorem mkDataclass_error_of_missing (fields : List Field)
    (kwargs : List (String × Val)) (f : Field) (hf : f ∈ fields)
    (hreq : f.required = true) (hnone : alGet kwargs f.name = none) :
    ∃ errs, mkDataclass fields kwargs = .error errs ∧ f.name ∈ errs := by
  unfold mkDataclass
  have hmem : f ∈ fields.filter (fun g => g.required && (alGet kwargs g.name).isNone) :=
    List.mem_filter.mpr ⟨hf, by simp [hreq, hnone]⟩
  have hmem2 : f.name ∈
      (fields.filter (fun g => g.required && (alGet kwargs g.name).isNone)).map Field.name :=
    List.mem_map_of_mem Field.name hmem
  have hne := List.ne_nil_of_mem hmem2
  rw [if_neg (by simpa using hne)]
  exact ⟨_, rfl, hmem2⟩

theorem mkDataclass_ok_of_required_present (fields : List Field)
    (kwargs : List (String × Val))
    (h : ∀ f ∈ fields, f.required = true → (alGet kwargs f.name).isSome = true) :
    mkDataclass fields kwargs =
      .ok (fields.map (fun f => (f.name, (alGet kwargs f.name).getD Val.vnone))) := by
  unfold mkDataclass
  have hfil : fields.filter (fun g => g.required && (alGet kwargs g.name).isNone) = [] := by
    rw [List.filter_eq_nil_iff]
    intro g hg
    simp only [Bool.and_eq_true, not_and]
    intro hr
    have hs := h g hg hr
    cases hget : alGet kwargs g.name with
    | none => rw [hget] at hs; simp at hs
    | some v => simp [hget]
  simp [hfil]

/-- The frozen-input extraction routine, characterized over the original
dict: it drops every declared field name from the dict, builds the keyword
set from the present non-`None` declared entries, and on success stores the
constructed record under `"frozen_model_input"`. -/
theorem init_frozen_char (ty : List Field) (d : TensorDict)
    (h : (ty.map Field.name).Nodup) :
    _init_frozen_model_input_from_tensor_dict ty d =
      (mkDataclass ty (extractKwargs ty d)).map
        (fun r => alSet (dropFields ty d) "frozen_model_input" (Val.vrecord r)) := by
  simp only [_init_frozen_model_input_from_tensor_dict]
  rw [popFields_fst ty d h, popFields_snd]
  cases mkDataclass ty (extractKwargs ty d) <;> simp [Except.map]

/-- The attention-metadata extraction routine, characterized over the
original dict, in the same shape as the frozen-input routine; the record is
stored under `"attn_metadata"`. -/
theorem init_attn_char (b : AttentionBackend) (d : TensorDict)
    (h : (b.metadata_fields.map Field.name).Nodup) :
    _init_attn_metadata_from_tensor_dict b d =
      (mkDataclass b.metadata_fields (extractKwargs b.metadata_fields d)).map
        (fun r => alSet (dropFields b.metadata_fields d) "attn_metadata" (Val.vrecord r)) := by
  simp only [_init_attn_metadata_from_tensor_dict, AttentionBackend.make_metadata]
  rw [popFields_fst b.metadata_fields d h, popFields_snd]
  cases mkDataclass b.metadata_fields (extractKwargs b.metadata_fields d) <;>
    simp [Except.map]

/-- The sampling-metadata extraction routine, characterized over the
original dict: the `"selected_token_indices"` entry is removed whenever
present (even with a `None` value), and only a present non-`None` value
produces a `"sampling_metadata"` record. -/
theorem init_sampling_char (d : TensorDict) :
    _init_sampling_metadata_from_tensor_dict d =
      match alGet d "selected_token_indices" with
      | none => d
      | some v =>
          if v.isNone then alErase d "selected_token_indices"
          else
            alSet (alErase d "selected_token_indices") "sampling_metadata"
              (Val.vsampling Val.vnone v Val.vnone 0) := by
  cases hget : alGet d "selected_token_indices" with
  | none =>
      simp only [_init_sampling_metadata_from_tensor_dict, dictPop_eq, hget,
        Option.getD_none, Val.isNone, if_true]
      exact alErase_of_not_mem d _ hget
  | some v =>
      cases hv : v.isNone with
      | true =>
          simp [_init_sampling_metadata_from_tensor_dict, dictPop_eq, hget, hv]
      | false =>
          simp [_init_sampling_metadata_from_tensor_dict, dictPop_eq, hget, hv]

theorem alGet_alErase_none {α : Type} (g : List (String × α)) (k n : String)
    (h : alGet g n = none) : alGet (alErase g k) n = none := by
  rw [alGet_eq_none_iff] at h ⊢
  intro hmem
  exact h (((alErase_sublist g k).map Prod.fst).subset hmem)

theorem alGet_foldl_alErase_none {α : Type} (l : List String)
    (g : List (String × α)) (n : String) (h : alGet g n = none) :
    alGet (l.foldl (fun acc k => alErase acc k) g) n = none := by
  induction l generalizing g with
  | nil => exact h
  | cons k ks ih => exact ih (alErase g k) (alGet_alErase_none g k n h)

theorem nodup_keys_foldl_alErase {α : Type} (l : List String)
    (g : List (String × α)) (h : (g.map Prod.fst).Nodup) :
    ((l.foldl (fun acc k => alErase acc k) g).map Prod.fst).Nodup := by
  induction l generalizing g with
  | nil => exact h
  | cons k ks ih => exact ih (alErase g k) (nodup_keys_alErase g k h)

theorem alGet_foldl_alErase_mem {α : Type} (l : List String)
    (g : List (String × α)) (n : String) (h : (g.map Prod.fst).Nodup)
    (hn : n ∈ l) : alGet (l.foldl (fun acc k => alErase acc k) g) n = none := by
  induction l generalizing g with
  | nil => simp at hn
  | cons k ks ih =>
      rcases List.mem_cons.mp hn with h1 | h2
      · subst h1
        exact alGet_foldl_alErase_none ks _ n (alGet_alErase_self g n h)
      · exact ih (alErase g k) (nodup_keys_alErase g k h) h2

theorem foldl_alErase_of_all_absent {α : Type} (l : List String)
    (g : List (String × α)) (h : ∀ k ∈ l, alGet g k = none) :
    l.foldl (fun acc k => alErase acc k) g = g := by
  induction l with
  | nil => rfl
  | cons k ks ih =>
      have h1 : alErase g k = g := alErase_of_not_mem g k (h k (List.mem_cons_self k ks))
      show ks.foldl (fun acc k => alErase acc k) (alErase g k) = g
      rw [h1]
      exact ih (fun k2 hk2 => h k2 (List.mem_cons_of_mem k hk2))

theorem get_generators_removes (g : Registry) (l : List String)
    (hnodup : (g.map Prod.fst).Nodup) (rid : String) (hrid : rid ∈ l) :
    alGet (ModelRunnerBase.get_generators g (some l)) rid = none := by
  cases l with
  | nil => simp at hrid
  | cons k ks =>
      simp only [ModelRunnerBase.get_generators, List.isEmpty_cons, if_false,
        Bool.false_eq_true]
      exact alGet_foldl_alErase_mem (k :: ks) g rid hnodup hrid

/-- C6: after `get_generators(L)`, the registry holds no entry for any id
in `L`; a second `get_generators(L)` call is a no-op on the already-cleaned
registry; and `get_generators([])` on an empty registry returns an empty
registry. -/
theorem generator_lifecycle (g : Registry) (l : List String)
    (hnodup : (g.map Prod.fst).Nodup) :
    (∀ rid ∈ l, alGet (ModelRunnerBase.get_generators g (some l)) rid = none)
    ∧ ModelRunnerBase.get_generators
        (ModelRunnerBase.get_generators g (some l)) (some l)
      = ModelRunnerBase.get_generators g (some l)
    ∧ ModelRunnerBase.get_generators ([] : Registry) (some []) = [] := by
  refine ⟨fun rid hrid => get_generators_removes g l hnodup rid hrid, ?_, rfl⟩
  cases l with
  | nil => rfl
  | cons k ks =>
      have habs : ∀ k2 ∈ k :: ks,
          alGet (ModelRunnerBase.get_generators g (some (k :: ks))) k2 = none :=
        fun k2 hk2 => get_generators_removes g (k :: ks) hnodup k2 hk2
      simp only [ModelRunnerBase.get_generators, List.isEmpty_cons, if_false,
        Bool.false_eq_true] at habs ⊢
      exact foldl_alErase_of_all_absent (k :: ks) _ habs

/-- C6 witness: the lifecycle at a one-entry registry and the finished list
containing its id. -/
theorem generator_lifecycle_witness :
    (([("r1", 7)] : Registry).map Prod.fst).Nodup
    ∧ ((∀ rid ∈ ["r1"],
          alGet (ModelRunnerBase.get_generators [("r1", 7)] (some ["r1"])) rid = none)
       ∧ ModelRunnerBase.get_generators
           (ModelRunnerBase.get_generators [("r1", 7)] (some ["r1"])) (some ["r1"])
         = ModelRunnerBase.get_generators [("r1", 7)] (some ["r1"])
       ∧ ModelRunnerBase.get_generators ([] : Registry) (some []) = []) :=
  ⟨by decide, generator_lifecycle [("r1", 7)] ["r1"] (by decide)⟩

/-- C7 counterexample: `generators` is a class attribute; two freshly
constructed runners share it. Starting from a registry holding `"r1"`,
calling `A.get_generators(["r1"])` leaves B reading an empty registry even
though B's registry read `[("r1", 7)]` before the call — A's mutation did
not leave B's registry unchanged. -/
theorem registry_ownership_counterexample :
    readGenerators (callGetGeneratorsA ⟨[("r1", 7)], Runner.new, Runner.new⟩
        (some ["r1"])).1
      (callGetGeneratorsA ⟨[("r1", 7)], Runner.new, Runner.new⟩
        (some ["r1"])).1.runnerB = ([] : Registry)
    ∧ readGenerators ⟨[("r1", 7)], Runner.new, Runner.new⟩ Runner.new = [("r1", 7)]
    ∧ ([] : Registry) ≠ [("r1", 7)] := by
  refine ⟨rfl, rfl, ?_⟩
  decide

/-- C7 amended: the source's `generators` is a mutable class-level dict and
the source never assigns a per-instance one, so two runner instances share
the single class-level registry: after any `A.get_generators(ids)` call,
B's attribute lookup sees exactly the updated registry that A sees. -/
theorem registry_shared_class_state (cg : Registry) (ids : Option (List String)) :
    readGenerators (callGetGeneratorsA ⟨cg, Runner.new, Runner.new⟩ ids).1
        (callGetGeneratorsA ⟨cg, Runner.new, Runner.new⟩ ids).1.runnerB
      = ModelRunnerBase.get_generators cg ids
    ∧ readGenerators (callGetGeneratorsA ⟨cg, Runner.new, Runner.new⟩ ids).1
        (callGetGeneratorsA ⟨cg, Runner.new, Runner.new⟩ ids).1.runnerA
      = readGenerators (callGetGeneratorsA ⟨cg, Runner.new, Runner.new⟩ ids).1
        (callGetGeneratorsA ⟨cg, Runner.new, Runner.new⟩ ids).1.runnerB :=
  ⟨rfl, rfl⟩

/-- C8: `get_generators` removes the finished ids before returning, the
returned mapping is the runner's live registry itself, and a write made
through the returned mapping is visible to a subsequent `get_generators`
call on the same runner. -/
theorem cleanup_before_access (cg : Registry) (ids : List String) (k : String)
    (v : Nat) (hnodup : (cg.map Prod.fst).Nodup) :
    (∀ rid ∈ ids,
        alGet (callGetGeneratorsA ⟨cg, Runner.new, Runner.new⟩ (some ids)).2 rid
          = none)
    ∧ (callGetGeneratorsA ⟨cg, Runner.new, Runner.new⟩ (some ids)).2
      = (callGetGeneratorsA ⟨cg, Runner.new, Runner.new⟩ (some ids)).1.class_generators
    ∧ alGet (callGetGeneratorsA
        ⟨alSet (callGetGeneratorsA ⟨cg, Runner.new, Runner.new⟩ (some ids)).2 k v,
         Runner.new, Runner.new⟩ none).2 k = some v := by
  refine ⟨fun rid hrid => ?_, rfl, ?_⟩
  · exact get_generators_removes cg ids hnodup rid hrid
  · show alGet (alSet (callGetGeneratorsA ⟨cg, Runner.new, Runner.new⟩ (some ids)).2 k v) k
      = some v
    exact alGet_alSet_self _ k v

/-- C8 witness: cleanup, live-reference identity and write visibility at a
concrete registry. -/
theorem cleanup_before_access_witness :
    (([("r1", 7)] : Registry).map Prod.fst).Nodup
    ∧ ((∀ rid ∈ ["r1"],
          alGet (callGetGeneratorsA ⟨[("r1", 7)], Runner.new, Runner.new⟩
            (some ["r1"])).2 rid = none)
       ∧ (callGetGeneratorsA ⟨[("r1", 7)], Runner.new, Runner.new⟩ (some ["r1"])).2
         = (callGetGeneratorsA ⟨[("r1", 7)], Runner.new, Runner.new⟩
             (some ["r1"])).1.class_generators
       ∧ alGet (callGetGeneratorsA
           ⟨alSet (callGetGeneratorsA ⟨[("r1", 7)], Runner.new, Runner.new⟩
               (some ["r1"])).2 "r2" 9,
            Runner.new, Runner.new⟩ none).2 "r2" = some 9) :=
  ⟨by decide, cleanup_before_access [("r1", 7)] ["r1"] "r2" 9 (by decide)⟩

/-- C9: every abstract operation's base implementation raises
`NotImplementedError` at call time, for every argument value. -/
theorem unimplemented_capability :
    (∀ s, BroadcastableModelInput.as_broadcastable_tensor_dict s
        = .raised "NotImplementedError")
    ∧ (∀ td ab, BroadcastableModelInput.from_broadcasted_tensor_dict td ab
        = .raised "NotImplementedError")
    ∧ (∀ s m, ModelRunnerInputBuilderBase.add_seq_group s m
        = .raised "NotImplementedError")
    ∧ (∀ s args, ModelRunnerInputBuilderBase.build s args
        = .raised "NotImplementedError")
    ∧ (∀ s td, ModelRunnerBase.make_model_input_from_broadcasted_tensor_dict s td
        = .raised "NotImplementedError")
    ∧ (∀ s l ve fr, ModelRunnerBase.prepare_model_input s l ve fr
        = .raised "NotImplementedError")
    ∧ (∀ s mi kv it ns, ModelRunnerBase.execute_model s mi kv it ns
        = .raised "NotImplementedError") :=
  ⟨fun _ => rfl, fun _ _ => rfl, fun _ _ => rfl, fun _ _ => rfl, fun _ _ => rfl,
   fun _ _ _ _ => rfl, fun _ _ _ _ _ => rfl⟩

/-- C10: passing `None` or the empty list as `finished_request_ids` removes
nothing — the registry (and the whole runner state) is unchanged and
returned as-is. -/
theorem empty_finished_ids_noop (g : Registry) :
    ModelRunnerBase.get_generators g none = g
    ∧ ModelRunnerBase.get_generators g (some []) = g
    ∧ callGetGeneratorsA ⟨g, Runner.new, Runner.new⟩ none
      = (⟨g, Runner.new, Runner.new⟩, g)
    ∧ callGetGeneratorsA ⟨g, Runner.new, Runner.new⟩ (some [])
      = (⟨g, Runner.new, Runner.new⟩, g) :=
  ⟨rfl, rfl, rfl, rfl⟩

theorem isNone_iff (v : Val) : v.isNone = true ↔ v = Val.vnone := by
  cases v <;> simp [Val.isNone]

theorem rawKw_idem (o : Option Val) : rawKw (rawKw o) = rawKw o := by
  cases o with
  | none => rfl
  | some v => cases hv : v.isNone <;> simp [rawKw, hv]

theorem getD_rawKw (o : Option Val) :
    (rawKw o).getD Val.vnone = o.getD Val.vnone := by
  cases o with
  | none => rfl
  | some v =>
      cases hv : v.isNone with
      | true => simp [rawKw, hv, (isNone_iff v).mp hv, Val.isNone]
      | false => simp [rawKw, hv]

theorem nodup_keys_filter_nonNone (r : List (String × Val))
    (h : (r.map Prod.fst).Nodup) :
    ((record_as_broadcastable_tensor_dict r).map Prod.fst).Nodup :=
  ((List.filter_sublist r).map Prod.fst).nodup h

theorem alGet_filter_nonNone (r : List (String × Val)) (n : String)
    (h : (r.map Prod.fst).Nodup) :
    alGet (record_as_broadcastable_tensor_dict r) n = rawKw (alGet r n) := by
  induction r with
  | nil => rfl
  | cons p rest ih =>
      obtain ⟨a, w⟩ := p
      simp only [List.map_cons, List.nodup_cons] at h
      by_cases ha : a = n
      · subst ha
        cases hw : w.isNone with
        | true =>
            have h0 : alGet rest a = none := (alGet_eq_none_iff rest a).mpr h.1
            have h1 := ih h.2
            rw [h0] at h1
            simp [record_as_broadcastable_tensor_dict, List.filter_cons, hw, alGet,
              rawKw] at h1 ⊢
            exact h1
        | false =>
            simp [record_as_broadcastable_tensor_dict, List.filter_cons, hw, alGet,
              rawKw]
      · cases hw : w.isNone with
        | true =>
            simp only [record_as_broadcastable_tensor_dict, List.filter_cons, hw,
              Bool.not_true, if_false, Bool.false_eq_true, alGet, if_neg ha]
            exact ih h.2
        | false =>
            simp only [record_as_broadcastable_tensor_dict, List.filter_cons, hw,
              Bool.not_false, if_true, alGet, if_neg ha]
            exact ih h.2

theorem map_fields_eq_of_aligned (ty : List Field) (r : List (String × Val))
    (halign : r.map Prod.fst = ty.map Field.name)
    (hnodup : (ty.map Field.name).Nodup) :
    ty.map (fun f => (f.name, (alGet r f.name).getD Val.vnone)) = r := by
  induction ty generalizing r with
  | nil =>
      cases r with
      | nil => rfl
      | cons p rest => simp at halign
  | cons f fs ih =>
      cases r with
      | nil => simp at halign
      | cons p rest =>
          obtain ⟨a, w⟩ := p
          simp only [List.map_cons, List.cons.injEq] at halign
          simp only [List.map_cons, List.nodup_cons] at hnodup
          obtain ⟨ha, halign2⟩ := halign
          subst ha
          have htail :
              fs.map (fun g => (g.name, (alGet ((f.name, w) :: rest) g.name).getD Val.vnone))
                = fs.map (fun g => (g.name, (alGet rest g.name).getD Val.vnone)) := by
            apply List.map_congr_left
            intro g hg
            have hgn : g.name ≠ f.name := by
              intro he
              exact hnodup.1 (he ▸ List.mem_map_of_mem Field.name hg)
            simp [alGet, Ne.symm hgn]
          simp only [List.map_cons]
          rw [htail, ih rest halign2 hnodup.2]
          simp [alGet]

theorem alGet_dropFields_not_mem (ty : List Field) (d : TensorDict) (k : String)
    (h : k ∉ ty.map Field.name) : alGet (dropFields ty d) k = alGet d k := by
  induction ty generalizing d with
  | nil => rfl
  | cons f fs ih =>
      simp only [List.map_cons, List.mem_cons, not_or] at h
      show alGet (dropFields fs (alErase d f.name)) k = alGet d k
      rw [ih (alErase d f.name) h.2]
      exact alGet_alErase_ne d f.name k h.1

theorem dropFields_nil (ty : List Field) (d : TensorDict)
    (hkeys : ∀ k ∈ d.map Prod.fst, k ∈ ty.map Field.name)
    (hnodup : (d.map Prod.fst).Nodup) : dropFields ty d = [] := by
  induction ty generalizing d with
  | nil =>
      cases d with
      | nil => rfl
      | cons p rest => exact absurd (hkeys p.1 (by simp)) (by simp)
  | cons f fs ih =>
      show dropFields fs (alErase d f.name) = []
      apply ih
      · intro k hk
        have hk2 : k ∈ d.map Prod.fst :=
          ((alErase_sublist d f.name).map Prod.fst).subset hk
        have hk3 := hkeys k hk2
        simp only [List.map_cons, List.mem_cons] at hk3
        rcases hk3 with h1 | h2
        · exfalso
          have h3 := alGet_alErase_self d f.name hnodup
          rw [alGet_eq_none_iff] at h3
          exact h3 (h1 ▸ hk)
        · exact h2
      · exact nodup_keys_alErase d f.name hnodup

theorem extractKwargs_missing (ty : List Field) (d : TensorDict) (f : Field)
    (hf : f ∈ ty) (hnodup : (ty.map Field.name).Nodup)
    (habs : alGet d f.name = none ∨ alGet d f.name = some Val.vnone) :
    alGet (extractKwargs ty d) f.name = none := by
  rw [alGet_extractKwargs_mem ty d f.name (List.mem_map_of_mem Field.name hf) hnodup]
  rcases habs with h | h <;> simp [h, rawKw, Val.isNone]

theorem extractKwargs_required_present (ty : List Field) (d : TensorDict)
    (hnodup : (ty.map Field.name).Nodup)
    (hreq : ∀ f ∈ ty, f.required = true →
        ∃ v, alGet d f.name = some v ∧ v.isNone = false) :
    ∀ f ∈ ty, f.required = true → (alGet (extractKwargs ty d) f.name).isSome = true := by
  intro f hf hr
  obtain ⟨v, hv, hvn⟩ := hreq f hf hr
  rw [alGet_extractKwargs_mem ty d f.name (List.mem_map_of_mem Field.name hf) hnodup,
    hv]
  simp [rawKw, hvn]

/-- C1: writing a sampling-metadata value's broadcastable field with
`_add_sampling_metadata_broadcastable_dict` and reconstructing with
`_init_sampling_metadata_from_tensor_dict` yields a sampling-metadata value
whose `selected_token_indices` equals the original's exactly; and for a
plain record variant, reconstructing with the frozen-input helper from the
record's emitted flat mapping reproduces every broadcastable field of the
record in value and type. -/
theorem round_trip_broadcastable_fields :
    (∀ (seq_groups selected_token_indices categorized_sample_indices : Val)
        (num_prompts : Int) (d : TensorDict),
        selected_token_indices.isNone = false →
        alGet (_init_sampling_metadata_from_tensor_dict
            (_add_sampling_metadata_broadcastable_dict d
              (some (Val.vsampling seq_groups selected_token_indices
                categorized_sample_indices num_prompts)))) "sampling_metadata"
          = some (Val.vsampling Val.vnone selected_token_indices Val.vnone 0))
    ∧ (∀ (ty : List Field) (r : List (String × Val)),
        r.map Prod.fst = ty.map Field.name →
        (ty.map Field.name).Nodup →
        (∀ f ∈ ty, f.required = true →
            ∃ v, alGet r f.name = some v ∧ v.isNone = false) →
        _init_frozen_model_input_from_tensor_dict ty
            (record_as_broadcastable_tensor_dict r)
          = .ok [("frozen_model_input", Val.vrecord r)]) := by
  constructor
  · intro sg sti csi np d hsti
    have h1 : _add_sampling_metadata_broadcastable_dict d
        (some (Val.vsampling sg sti csi np))
        = alSet d "selected_token_indices" sti := rfl
    rw [h1, init_sampling_char, alGet_alSet_self d "selected_token_indices" sti]
    simp [hsti, alGet_alSet_self]
  · intro ty r halign hnodup hreq
    have hnodupr : (r.map Prod.fst).Nodup := by rw [halign]; exact hnodup
    have hkw : ∀ f ∈ ty,
        alGet (extractKwargs ty (record_as_broadcastable_tensor_dict r)) f.name
          = rawKw (alGet r f.name) := by
      intro f hf
      rw [alGet_extractKwargs_mem _ _ _ (List.mem_map_of_mem Field.name hf) hnodup,
        alGet_filter_nonNone r f.name hnodupr, rawKw_idem]
    have hok := mkDataclass_ok_of_required_present ty
        (extractKwargs ty (record_as_broadcastable_tensor_dict r))
        (by
          intro f hf hr
          obtain ⟨v, hv, hvn⟩ := hreq f hf hr
          rw [hkw f hf, hv]
          simp [rawKw, hvn])
    have hrec : ty.map (fun f => (f.name,
        (alGet (extractKwargs ty (record_as_broadcastable_tensor_dict r)) f.name).getD
          Val.vnone)) = r := by
      have hcongr : ∀ f ∈ ty, (f.name,
          (alGet (extractKwargs ty (record_as_broadcastable_tensor_dict r)) f.name).getD
            Val.vnone)
          = (f.name, (alGet r f.name).getD Val.vnone) := by
        intro f hf
        rw [hkw f hf, getD_rawKw]
      rw [List.map_congr_left hcongr]
      exact map_fields_eq_of_aligned ty r halign hnodup
    have hdrop : dropFields ty (record_as_broadcastable_tensor_dict r) = [] := by
      apply dropFields_nil
      · intro k hk
        have hk2 : k ∈ r.map Prod.fst :=
          ((List.filter_sublist r).map Prod.fst).subset hk
        rw [halign] at hk2
        exact hk2
      · exact nodup_keys_filter_nonNone r hnodupr
    rw [init_frozen_char ty _ hnodup, hok, hdrop, hrec]
    rfl

/-- C1 witness: the sampling round trip at concrete indices `[0, 2, 5]`,
and the generic record round trip at a two-field record with one required
and one defaulted-absent field. -/
theorem round_trip_broadcastable_fields_witness :
    alGet (_init_sampling_metadata_from_tensor_dict
        (_add_sampling_metadata_broadcastable_dict []
          (some (Val.vsampling Val.vnone (Val.vtensor [0, 2, 5]) Val.vnone 4))))
      "sampling_metadata"
      = some (Val.vsampling Val.vnone (Val.vtensor [0, 2, 5]) Val.vnone 0)
    ∧ _init_frozen_model_input_from_tensor_dict
        [⟨"input_tokens", true⟩, ⟨"input_positions", false⟩]
        (record_as_broadcastable_tensor_dict
          [("input_tokens", Val.vtensor [1, 2]), ("input_positions", Val.vnone)])
      = .ok [("frozen_model_input", Val.vrecord
          [("input_tokens", Val.vtensor [1, 2]), ("input_positions", Val.vnone)])] :=
  ⟨round_trip_broadcastable_fields.1 Val.vnone (Val.vtensor [0, 2, 5]) Val.vnone 4 [] rfl,
   round_trip_broadcastable_fields.2
     [⟨"input_tokens", true⟩, ⟨"input_positions", false⟩]
     [("input_tokens", Val.vtensor [1, 2]), ("input_positions", Val.vnone)]
     (by decide) (by decide)
     (by
       intro f hf hr
       rcases List.mem_cons.mp hf with h1 | h2
       · subst h1
         exact ⟨Val.vtensor [1, 2], rfl, rfl⟩
       · rcases List.mem_cons.mp h2 with h3 | h4
         · subst h3
           simp at hr
         · simp at h4)⟩

/-- C2: a flat mapping holding a non-`None` `selected_token_indices` entry
reconstructs, under `"sampling_metadata"`, a sampling-metadata value with
no seq groups, no categorized sample indices, zero prompts, and exactly the
stored indices. -/
theorem sampling_shortcut (d : TensorDict) (v : Val)
    (hget : alGet d "selected_token_indices" = some v) (hv : v.isNone = false) :
    alGet (_init_sampling_metadata_from_tensor_dict d) "sampling_metadata"
      = some (Val.vsampling Val.vnone v Val.vnone 0) := by
  rw [init_sampling_char d, hget]
  simp [hv, alGet_alSet_self]

/-- C2 witness: the shortcut at the mapping holding only
`selected_token_indices = [0, 2, 5]`. -/
theorem sampling_shortcut_witness :
    alGet [("selected_token_indices", Val.vtensor [0, 2, 5])] "selected_token_indices"
      = some (Val.vtensor [0, 2, 5])
    ∧ (Val.vtensor [0, 2, 5]).isNone = false
    ∧ alGet (_init_sampling_metadata_from_tensor_dict
        [("selected_token_indices", Val.vtensor [0, 2, 5])]) "sampling_metadata"
      = some (Val.vsampling Val.vnone (Val.vtensor [0, 2, 5]) Val.vnone 0) :=
  ⟨rfl, rfl, sampling_shortcut _ _ rfl rfl⟩

/-- C3: for a required field absent from the flat mapping (or present with
a `None` value), both the frozen-input helper and the attention-metadata
helper fail with a missing-field error naming that field. -/
theorem missing_required_field_error :
    (∀ (ty : List Field) (f : Field) (d : TensorDict),
        f ∈ ty → f.required = true → (ty.map Field.name).Nodup →
        (alGet d f.name = none ∨ alGet d f.name = some Val.vnone) →
        ∃ errs, _init_frozen_model_input_from_tensor_dict ty d = .error errs
          ∧ f.name ∈ errs)
    ∧ (∀ (b : AttentionBackend) (f : Field) (d : TensorDict),
        f ∈ b.metadata_fields → f.required = true →
        (b.metadata_fields.map Field.name).Nodup →
        (alGet d f.name = none ∨ alGet d f.name = some Val.vnone) →
        ∃ errs, _init_attn_metadata_from_tensor_dict b d = .error errs
          ∧ f.name ∈ errs) := by
  constructor
  · intro ty f d hf hr hnodup habs
    obtain ⟨errs, herr, hmem⟩ := mkDataclass_error_of_missing ty
      (extractKwargs ty d) f hf hr (extractKwargs_missing ty d f hf hnodup habs)
    refine ⟨errs, ?_, hmem⟩
    rw [init_frozen_char ty d hnodup, herr]
    rfl
  · intro b f d hf hr hnodup habs
    obtain ⟨errs, herr, hmem⟩ := mkDataclass_error_of_missing b.metadata_fields
      (extractKwargs b.metadata_fields d) f hf hr
      (extractKwargs_missing b.metadata_fields d f hf hnodup habs)
    refine ⟨errs, ?_, hmem⟩
    rw [init_attn_char b d hnodup, herr]
    rfl

/-- C3 witness: the frozen helper on an empty mapping with one required
field, and the attention helper on a mapping carrying the required field
with a `None` value. -/
theorem missing_required_field_error_witness :
    (∃ errs, _init_frozen_model_input_from_tensor_dict [⟨"input_tokens", true⟩] []
        = .error errs ∧ "input_tokens" ∈ errs)
    ∧ (∃ errs, _init_attn_metadata_from_tensor_dict ⟨[⟨"seq_lens", true⟩]⟩
        [("seq_lens", Val.vnone)] = .error errs ∧ "seq_lens" ∈ errs) :=
  ⟨missing_required_field_error.1 [⟨"input_tokens", true⟩] ⟨"input_tokens", true⟩ []
      (by decide) rfl (by decide) (Or.inl rfl),
   missing_required_field_error.2 ⟨[⟨"seq_lens", true⟩]⟩ ⟨"seq_lens", true⟩
      [("seq_lens", Val.vnone)] (by decide) rfl (by decide) (Or.inr rfl)⟩

/-- C4 counterexample: on the mapping whose only entry is
`selected_token_indices = None`, the sampling extraction routine removes
that entry (although its value is absent, contradicting "pops exactly the
present non-absent declared entries") and inserts no record at all (so
nothing is stored under `"sampling_metadata"`). -/
theorem uniform_extraction_counterexample :
    _init_sampling_metadata_from_tensor_dict [("selected_token_indices", Val.vnone)] = []
    ∧ alGet (_init_sampling_metadata_from_tensor_dict
        [("selected_token_indices", Val.vnone)]) "selected_token_indices" = none
    ∧ alGet (_init_sampling_metadata_from_tensor_dict
        [("selected_token_indices", Val.vnone)]) "sampling_metadata" = none :=
  ⟨rfl, rfl, rfl⟩

/-- C4 amended: each extraction routine pops every declared field name from
the mapping (removing an entry even when its value is absent), builds the
keyword set from exactly the popped entries that were present and
non-absent, and inserts the constructed record under its well-known key
only when construction happens — for the sampling routine, only when
`selected_token_indices` was present and non-absent; for the frozen/attention
routines, when no required field is missing (otherwise the missing-field
error is raised and nothing is inserted). -/
theorem uniform_extraction_amended :
    (∀ d : TensorDict,
        _init_sampling_metadata_from_tensor_dict d =
          match alGet d "selected_token_indices" with
          | none => d
          | some v =>
              if v.isNone then alErase d "selected_token_indices"
              else
                alSet (alErase d "selected_token_indices") "sampling_metadata"
                  (Val.vsampling Val.vnone v Val.vnone 0))
    ∧ (∀ (ty : List Field) (d : TensorDict), (ty.map Field.name).Nodup →
        _init_frozen_model_input_from_tensor_dict ty d =
          (mkDataclass ty (extractKwargs ty d)).map
            (fun r => alSet (dropFields ty d) "frozen_model_input" (Val.vrecord r)))
    ∧ (∀ (b : AttentionBackend) (d : TensorDict),
        (b.metadata_fields.map Field.name).Nodup →
        _init_attn_metadata_from_tensor_dict b d =
          (mkDataclass b.metadata_fields (extractKwargs b.metadata_fields d)).map
            (fun r => alSet (dropFields b.metadata_fields d) "attn_metadata"
              (Val.vrecord r))) :=
  ⟨init_sampling_char, init_frozen_char, init_attn_char⟩

/-- C4 witness: the amended characterization instantiated for the frozen
helper and attention helper at concrete mappings. -/
theorem uniform_extraction_amended_witness :
    _init_frozen_model_input_from_tensor_dict [⟨"input_tokens", true⟩]
        [("input_tokens", Val.vtensor [3]), ("extra", Val.vint 1)]
      = (mkDataclass [⟨"input_tokens", true⟩]
          (extractKwargs [⟨"input_tokens", true⟩]
            [("input_tokens", Val.vtensor [3]), ("extra", Val.vint 1)])).map
          (fun r => alSet (dropFields [⟨"input_tokens", true⟩]
              [("input_tokens", Val.vtensor [3]), ("extra", Val.vint 1)])
            "frozen_model_input" (Val.vrecord r))
    ∧ _init_attn_metadata_from_tensor_dict ⟨[⟨"seq_lens", true⟩]⟩
        [("seq_lens", Val.vtensor [2])]
      = (mkDataclass [⟨"seq_lens", true⟩]
          (extractKwargs [⟨"seq_lens", true⟩] [("seq_lens", Val.vtensor [2])])).map
          (fun r => alSet (dropFields [⟨"seq_lens", true⟩]
              [("seq_lens", Val.vtensor [2])]) "attn_metadata" (Val.vrecord r)) :=
  ⟨uniform_extraction_amended.2.1 [⟨"input_tokens", true⟩]
      [("input_tokens", Val.vtensor [3]), ("extra", Val.vint 1)] (by decide),
   uniform_extraction_amended.2.2 ⟨[⟨"seq_lens", true⟩]⟩
      [("seq_lens", Val.vtensor [2])] (by decide)⟩

/-- C5 counterexample: an extra key named exactly `"frozen_model_input"`
(outside the declared field set) is not left unchanged — the frozen helper
overwrites it with the constructed record. -/
theorem extra_key_tolerance_counterexample :
    _init_frozen_model_input_from_tensor_dict [⟨"input_tokens", true⟩]
        [("input_tokens", Val.vtensor [1]), ("frozen_model_input", Val.vint 7)]
      = .ok [("frozen_model_input", Val.vrecord [("input_tokens", Val.vtensor [1])])]
    ∧ alGet [("input_tokens", Val.vtensor [1]), ("frozen_model_input", Val.vint 7)]
        "frozen_model_input" = some (Val.vint 7)
    ∧ alGet [("frozen_model_input", Val.vrecord [("input_tokens", Val.vtensor [1])])]
        "frozen_model_input"
      = some (Val.vrecord [("input_tokens", Val.vtensor [1])])
    ∧ Val.vrecord [("input_tokens", Val.vtensor [1])] ≠ Val.vint 7 :=
  ⟨rfl, rfl, rfl, fun h => Val.noConfusion h⟩

/-- C5 amended: given all required fields present and non-absent, each
record-extraction helper succeeds, constructs a record that depends only on
the mapping's values at the declared field names (so any agreeing mapping —
in particular one without the extra keys — yields the same record), and
leaves every key outside the declared field set unchanged, except an extra
key equal to the helper's own well-known output key, which is overwritten
by the constructed record. -/
theorem extra_key_tolerance_amended :
    (∀ (ty : List Field) (d : TensorDict),
        (ty.map Field.name).Nodup →
        (∀ f ∈ ty, f.required = true →
            ∃ v, alGet d f.name = some v ∧ v.isNone = false) →
        ∃ r, _init_frozen_model_input_from_tensor_dict ty d
            = .ok (alSet (dropFields ty d) "frozen_model_input" (Val.vrecord r))
          ∧ (∀ k, k ∉ ty.map Field.name → k ≠ "frozen_model_input" →
              alGet (alSet (dropFields ty d) "frozen_model_input" (Val.vrecord r)) k
                = alGet d k)
          ∧ (∀ d2, (∀ f ∈ ty, alGet d2 f.name = alGet d f.name) →
              _init_frozen_model_input_from_tensor_dict ty d2
                = .ok (alSet (dropFields ty d2) "frozen_model_input" (Val.vrecord r))))
    ∧ (∀ (b : AttentionBackend) (d : TensorDict),
        (b.metadata_fields.map Field.name).Nodup →
        (∀ f ∈ b.metadata_fields, f.required = true →
            ∃ v, alGet d f.name = some v ∧ v.isNone = false) →
        ∃ r, _init_attn_metadata_from_tensor_dict b d
            = .ok (alSet (dropFields b.metadata_fields d) "attn_metadata"
                (Val.vrecord r))
          ∧ (∀ k, k ∉ b.metadata_fields.map Field.name → k ≠ "attn_metadata" →
              alGet (alSet (dropFields b.metadata_fields d) "attn_metadata"
                (Val.vrecord r)) k = alGet d k)
          ∧ (∀ d2, (∀ f ∈ b.metadata_fields, alGet d2 f.name = alGet d f.name) →
              _init_attn_metadata_from_tensor_dict b d2
                = .ok (alSet (dropFields b.metadata_fields d2) "attn_metadata"
                    (Val.vrecord r)))) := by
  constructor
  · intro ty d hnodup hreq
    refine ⟨ty.map (fun f =>
        (f.name, (alGet (extractKwargs ty d) f.name).getD Val.vnone)), ?_, ?_, ?_⟩
    · rw [init_frozen_char ty d hnodup, mkDataclass_ok_of_required_present ty _
        (extractKwargs_required_present ty d hnodup hreq)]
      rfl
    · intro k hk hk2
      rw [alGet_alSet_ne _ _ _ _ hk2, alGet_dropFields_not_mem ty d k hk]
    · intro d2 hagree
      have hkweq : extractKwargs ty d2 = extractKwargs ty d :=
        extractKwargs_congr ty d2 d hagree
      rw [init_frozen_char ty d2 hnodup, hkweq, mkDataclass_ok_of_required_present ty _
        (extractKwargs_required_present ty d hnodup hreq)]
      rfl
  · intro b d hnodup hreq
    refine ⟨b.metadata_fields.map (fun f =>
        (f.name, (alGet (extractKwargs b.metadata_fields d) f.name).getD Val.vnone)),
      ?_, ?_, ?_⟩
    · rw [init_attn_char b d hnodup, mkDataclass_ok_of_required_present _ _
        (extractKwargs_required_present b.metadata_fields d hnodup hreq)]
      rfl
    · intro k hk hk2
      rw [alGet_alSet_ne _ _ _ _ hk2,
        alGet_dropFields_not_mem b.metadata_fields d k hk]
    · intro d2 hagree
      have hkweq : extractKwargs b.metadata_fields d2 = extractKwargs b.metadata_fields d :=
        extractKwargs_congr b.metadata_fields d2 d hagree
      rw [init_attn_char b d2 hnodup, hkweq, mkDataclass_ok_of_required_present _ _
        (extractKwargs_required_present b.metadata_fields d hnodup hreq)]
      rfl

/-- C5 witness: the amended tolerance for the frozen helper at a mapping
carrying the required field plus an unrelated extra key. -/
theorem extra_key_tolerance_amended_witness :
    ∃ r, _init_frozen_model_input_from_tensor_dict [⟨"input_tokens", true⟩]
        [("input_tokens", Val.vtensor [1]), ("extra", Val.vint 5)]
        = .ok (alSet (dropFields [⟨"input_tokens", true⟩]
            [("input_tokens", Val.vtensor [1]), ("extra", Val.vint 5)])
          "frozen_model_input" (Val.vrecord r))
      ∧ (∀ k, k ∉ [⟨"input_tokens", true⟩].map Field.name →
          k ≠ "frozen_model_input" →
          alGet (alSet (dropFields [⟨"input_tokens", true⟩]
              [("input_tokens", Val.vtensor [1]), ("extra", Val.vint 5)])
            "frozen_model_input" (Val.vrecord r)) k
            = alGet [("input_tokens", Val.vtensor [1]), ("extra", Val.vint 5)] k)
      ∧ (∀ d2, (∀ f ∈ ([⟨"input_tokens", true⟩] : List Field), alGet d2 f.name
            = alGet [("input_tokens", Val.vtensor [1]), ("extra", Val.vint 5)] f.name) →
          _init_frozen_model_input_from_tensor_dict [⟨"input_tokens", true⟩] d2
            = .ok (alSet (dropFields [⟨"input_tokens", true⟩] d2)
                "frozen_model_input" (Val.vrecord r))) :=
  extra_key_tolerance_amended.1 [⟨"input_tokens", true⟩]
    [("input_tokens", Val.vtensor [1]), ("extra", Val.vint 5)] (by decide)
    (by
      intro f hf hr
      rcases List.mem_cons.mp hf with h1 | h2
      · subst h1
        exact ⟨Val.vtensor [1], rfl, rfl⟩
      · simp at h2)

end Aphrodite
